import Mathlib

/-!
Verification development for the question-generator service in `src/app.py`
(class `EnhancedQuestionGenerator`).  The Python source parses a code snippet
with `ast.parse`, walks the tree with `ast.walk` (breadth-first, queue based),
classifies nodes into six fact categories, renders fixed templates, removes
duplicate questions with `list(dict.fromkeys(...))` and returns
`random.choice(unique_questions)`.

The embedding below models the fragment of the Python abstract syntax that the
analyzer distinguishes (function definitions, bare names, `for`/`while` loops,
`if` statements, `import` and `from ... import` statements, expression
statements, assignments, returns, constants and binary operations) together
with the exact classification, rendering, deduplication and selection logic of
`src/app.py`.  Auxiliary grammar nodes that no `isinstance` check in the source
ever matches (parameter `arg` nodes, `alias` nodes, operator and context
markers) carry no information for any category and are not represented.
-/

namespace Codegen

/-- Expression nodes of the modelled AST fragment.  `lineno` is the 1-based
source line recorded by the Python parser on every node. -/
inductive Expr where
  | name (id : String) (lineno : Nat)
  | constantInt (n : Int) (lineno : Nat)
  | constantStr (s : String) (lineno : Nat)
  | binOp (left : Expr) (right : Expr) (lineno : Nat)
deriving Repr, DecidableEq

/-- Statement nodes of the modelled AST fragment.  `importStmt` keeps the
alias names of a plain `import a, b, ...` statement as a first name plus the
remaining names (the Python grammar guarantees at least one alias);
`importFrom` models `from mod import names`. -/
inductive Stmt where
  | functionDef (name : String) (args : List String) (body : List Stmt) (lineno : Nat)
  | assign (targets : List Expr) (value : Expr) (lineno : Nat)
  | ret (value : Option Expr) (lineno : Nat)
  | forStmt (target : Expr) (iter : Expr) (body : List Stmt) (orelse : List Stmt) (lineno : Nat)
  | whileStmt (test : Expr) (body : List Stmt) (orelse : List Stmt) (lineno : Nat)
  | ifStmt (test : Expr) (body : List Stmt) (orelse : List Stmt) (lineno : Nat)
  | importStmt (firstName : String) (restNames : List String) (lineno : Nat)
  | importFrom (moduleName : String) (names : List String) (lineno : Nat)
  | exprStmt (value : Expr) (lineno : Nat)
deriving Repr

/-- A parsed module: the result of a successful `ast.parse`. -/
structure Module where
  body : List Stmt
deriving Repr

/-- A node of the tree, as yielded by `ast.walk`. -/
inductive Node where
  | module (m : Module)
  | stmt (s : Stmt)
  | expr (e : Expr)
deriving Repr

/-- Child nodes of an expression, in the field order of the Python grammar
(`BinOp` has fields `left`, `op`, `right`; the operator marker is not a
classified node). -/
def Expr.childNodes : Expr → List Node
  | .name _ _ => []
  | .constantInt _ _ => []
  | .constantStr _ _ => []
  | .binOp l r _ => [Node.expr l, Node.expr r]

/-- Child nodes of a statement, in the field order of the Python grammar. -/
def Stmt.childNodes : Stmt → List Node
  | .functionDef _ _ body _ => body.map Node.stmt
  | .assign targets value _ => targets.map Node.expr ++ [Node.expr value]
  | .ret none _ => []
  | .ret (some v) _ => [Node.expr v]
  | .forStmt target iter body orelse _ =>
      Node.expr target :: Node.expr iter :: (body.map Node.stmt ++ orelse.map Node.stmt)
  | .whileStmt test body orelse _ =>
      Node.expr test :: (body.map Node.stmt ++ orelse.map Node.stmt)
  | .ifStmt test body orelse _ =>
      Node.expr test :: (body.map Node.stmt ++ orelse.map Node.stmt)
  | .importStmt _ _ _ => []
  | .importFrom _ _ _ => []
  | .exprStmt v _ => [Node.expr v]

/-- Child nodes of a node (`ast.iter_child_nodes`). -/
def Node.children : Node → List Node
  | .module m => m.body.map Node.stmt
  | .stmt s => s.childNodes
  | .expr e => e.childNodes

/-- Size of an expression (number of nodes), used for walk termination. -/
def Expr.size : Expr → Nat
  | .name _ _ => 1
  | .constantInt _ _ => 1
  | .constantStr _ _ => 1
  | .binOp l r _ => 1 + Expr.size l + Expr.size r

/-- Total size of a list of expressions. -/
def Expr.sizeList : List Expr → Nat
  | [] => 0
  | e :: r => Expr.size e + Expr.sizeList r

mutual

/-- Size of a statement (number of nodes), used for walk termination. -/
def Stmt.size : Stmt → Nat
  | .functionDef _ _ body _ => 1 + Stmt.sizeList body
  | .assign targets value _ => 1 + Expr.sizeList targets + Expr.size value
  | .ret none _ => 1
  | .ret (some v) _ => 1 + Expr.size v
  | .forStmt target iter body orelse _ =>
      1 + Expr.size target + Expr.size iter + Stmt.sizeList body + Stmt.sizeList orelse
  | .whileStmt test body orelse _ =>
      1 + Expr.size test + Stmt.sizeList body + Stmt.sizeList orelse
  | .ifStmt test body orelse _ =>
      1 + Expr.size test + Stmt.sizeList body + Stmt.sizeList orelse
  | .importStmt _ _ _ => 1
  | .importFrom _ _ _ => 1
  | .exprStmt v _ => 1 + Expr.size v

/-- Total size of a list of statements. -/
def Stmt.sizeList : List Stmt → Nat
  | [] => 0
  | s :: r => Stmt.size s + Stmt.sizeList r

end

/-- Size of a node. -/
def Node.size : Node → Nat
  | .module m => 1 + Stmt.sizeList m.body
  | .stmt s => Stmt.size s
  | .expr e => Expr.size e

/-- Total size of a list of nodes (the pending queue of the walk). -/
def nodesSize : List Node → Nat
  | [] => 0
  | n :: rest => Node.size n + nodesSize rest

theorem nodesSize_append (a b : List Node) :
    nodesSize (a ++ b) = nodesSize a + nodesSize b := by
  induction a with
  | nil => simp [nodesSize]
  | cons n rest ih => simp [nodesSize, ih]; omega

theorem nodesSize_map_stmt (l : List Stmt) :
    nodesSize (l.map Node.stmt) = Stmt.sizeList l := by
  induction l with
  | nil => simp [nodesSize, Stmt.sizeList]
  | cons s rest ih => simp [nodesSize, Stmt.sizeList, ih, Node.size]

theorem nodesSize_map_expr (l : List Expr) :
    nodesSize (l.map Node.expr) = Expr.sizeList l := by
  induction l with
  | nil => simp [nodesSize, Expr.sizeList]
  | cons e rest ih => simp [nodesSize, Expr.sizeList, ih, Node.size]

theorem children_size_lt (n : Node) : nodesSize n.children < Node.size n := by
  match n with
  | .module m =>
      simp [Node.children, Node.size, nodesSize_map_stmt]
  | .expr (.name _ _) | .expr (.constantInt _ _) | .expr (.constantStr _ _) =>
      simp [Node.children, Expr.childNodes, Node.size, Expr.size, nodesSize]
  | .expr (.binOp l r _) =>
      simp [Node.children, Expr.childNodes, Node.size, Expr.size, nodesSize]
  | .stmt (.functionDef nm args body ln) =>
      simp [Node.children, Stmt.childNodes, Node.size, Stmt.size, nodesSize_map_stmt]
  | .stmt (.assign targets value ln) =>
      simp [Node.children, Stmt.childNodes, Node.size, Stmt.size, nodesSize_append,
        nodesSize_map_expr, nodesSize, Node.size]
  | .stmt (.ret none ln) =>
      simp [Node.children, Stmt.childNodes, Node.size, Stmt.size, nodesSize]
  | .stmt (.ret (some v) ln) =>
      simp [Node.children, Stmt.childNodes, Node.size, Stmt.size, nodesSize]
  | .stmt (.forStmt t i body orelse ln) =>
      simp [Node.children, Stmt.childNodes, Node.size, Stmt.size, nodesSize,
        nodesSize_append, nodesSize_map_stmt]
      omega
  | .stmt (.whileStmt t body orelse ln) =>
      simp [Node.children, Stmt.childNodes, Node.size, Stmt.size, nodesSize,
        nodesSize_append, nodesSize_map_stmt]
      omega
  | .stmt (.ifStmt t body orelse ln) =>
      simp [Node.children, Stmt.childNodes, Node.size, Stmt.size, nodesSize,
        nodesSize_append, nodesSize_map_stmt]
      omega
  | .stmt (.importStmt _ _ _) | .stmt (.importFrom _ _ _) =>
      simp [Node.children, Stmt.childNodes, Node.size, Stmt.size, nodesSize]
  | .stmt (.exprStmt v ln) =>
      simp [Node.children, Stmt.childNodes, Node.size, Stmt.size, nodesSize]

/-- The queue loop of `ast.walk`: pop the front node, yield it, and push its
children at the back (`todo.extend(ast.iter_child_nodes(node))`). -/
def walkAux (q : List Node) : List Node :=
  match q with
  | [] => []
  | n :: rest => n :: walkAux (rest ++ n.children)
termination_by nodesSize q
decreasing_by
  have h := children_size_lt n
  simp [nodesSize_append, nodesSize]
  omega

/-- `ast.walk(tree)`: breadth-first enumeration of all nodes starting at
the given root. -/
def walk (n : Node) : List Node := walkAux [n]

/-- A function record of the analysis: `{"name": ..., "lineno": ..., "args": ...}`. -/
structure FuncInfo where
  name : String
  lineno : Nat
  args : List String
deriving Repr, DecidableEq

/-- A variable record of the analysis: `{"name": ..., "lineno": ...}`. -/
structure VarInfo where
  name : String
  lineno : Nat
deriving Repr, DecidableEq

/-- A loop or conditional record of the analysis: `{"lineno": ...}`. -/
structure LineInfo where
  lineno : Nat
deriving Repr, DecidableEq

/-- An import record of the analysis: `{"name": ..., "lineno": ...}`. -/
structure ImportInfo where
  name : String
  lineno : Nat
deriving Repr, DecidableEq

/-- The analysis dictionary built by `analyze_code` on the success path. -/
structure Analysis where
  functions : List FuncInfo
  /-- The `"variables"` key of the analysis dictionary (`variables` is not a
  usable field name in Lean 4). -/
  vars : List VarInfo
  loops : List LineInfo
  conditionals : List LineInfo
  imports : List ImportInfo
  docstrings : List String
deriving Repr, DecidableEq

/-- Comprehension filter and projection for
`[{"name": node.name, "lineno": node.lineno, "args": [arg.arg for arg in node.args.args]}
for node in ast.walk(tree) if isinstance(node, ast.FunctionDef)]`. -/
def extractFunction : Node → Option FuncInfo
  | .stmt (.functionDef name args _ lineno) => some ⟨name, lineno, args⟩
  | _ => none

/-- Comprehension filter and projection for
`[{"name": node.id, "lineno": node.lineno}
for node in ast.walk(tree) if isinstance(node, ast.Name)]`. -/
def extractVariable : Node → Option VarInfo
  | .expr (.name id lineno) => some ⟨id, lineno⟩
  | _ => none

/-- Comprehension filter and projection for
`[{"lineno": node.lineno} for node in ast.walk(tree) if isinstance(node, (ast.For, ast.While))]`. -/
def extractLoop : Node → Option LineInfo
  | .stmt (.forStmt _ _ _ _ lineno) => some ⟨lineno⟩
  | .stmt (.whileStmt _ _ _ lineno) => some ⟨lineno⟩
  | _ => none

/-- Comprehension filter and projection for
`[{"lineno": node.lineno} for node in ast.walk(tree) if isinstance(node, ast.If)]`. -/
def extractConditional : Node → Option LineInfo
  | .stmt (.ifStmt _ _ _ lineno) => some ⟨lineno⟩
  | _ => none

/-- Comprehension filter and projection for
`[{"name": node.names[0].name, "lineno": node.lineno}
for node in ast.walk(tree) if isinstance(node, ast.Import)]`.  A
`from ... import ...` statement is an `ast.ImportFrom`, which is not an
instance of `ast.Import`, so only plain import statements match, and only the
first alias name is kept. -/
def extractImport : Node → Option ImportInfo
  | .stmt (.importStmt firstName _ lineno) => some ⟨firstName, lineno⟩
  | _ => none

/-- Characters stripped by Python's `str.strip()`. -/
def pySpace (c : Char) : Bool :=
  c = ' ' || c = '\t' || c = '\n' || c = '\r' || c = '\x0b' || c = '\x0c'

/-- Python's `str.strip()`: remove leading and trailing whitespace. -/
def pyStrip (s : String) : String :=
  String.mk (((s.data.dropWhile pySpace).reverse.dropWhile pySpace).reverse)

/-- The raw leading string literal of a statement body, as inspected by the
standard-library helper `ast.get_docstring`: the literal is present exactly
when the first statement of the body is an expression statement whose value is
a string constant. -/
def leadingStringLiteral : List Stmt → Option String
  | .exprStmt (.constantStr s _) _ :: _ => some s
  | _ => none

/-- One step of `extract_docstrings`: `docstring = ast.get_docstring(node)`
followed by `if docstring: docstrings.append(docstring.strip())`.
`ast.get_docstring` normalises the literal with `inspect.cleandoc` before the
source applies `.strip()`; the two normalisations agree on whether the result
is empty and no claim inspects the interior of a docstring text, so the
composed normalisation is modelled by `pyStrip` alone.  A whitespace-only
literal normalises to the empty string, which is falsy in Python and is
therefore skipped. -/
def docstringOf (body : List Stmt) : Option String :=
  match leadingStringLiteral body with
  | some d => if pyStrip d = "" then none else some (pyStrip d)
  | none => none

/-- Filter and projection of `extract_docstrings`: docstrings are collected
from nodes that are `ast.Module` or `ast.FunctionDef`. -/
def extractDocstring : Node → Option String
  | .module mm => docstringOf mm.body
  | .stmt (.functionDef _ _ body _) => docstringOf body
  | _ => none

/-- `EnhancedQuestionGenerator.extract_docstrings(tree)`. -/
def extract_docstrings (m : Module) : List String :=
  (walk (Node.module m)).filterMap extractDocstring

/-- The analysis dictionary built by `analyze_code` when `ast.parse`
succeeds: each category is a comprehension over `ast.walk(tree)`. -/
def analyzeModule (m : Module) : Analysis where
  functions := (walk (Node.module m)).filterMap extractFunction
  vars := (walk (Node.module m)).filterMap extractVariable
  loops := (walk (Node.module m)).filterMap extractLoop
  conditionals := (walk (Node.module m)).filterMap extractConditional
  imports := (walk (Node.module m)).filterMap extractImport
  docstrings := extract_docstrings m

/-- Outcome of `ast.parse(code_snippet)`.  The host parser itself is outside
the embedded fragment: an input is either syntactically valid source, carried
as its parsed module, or invalid, carried as the parser's error message
(`str(e)` of the raised `SyntaxError`). -/
inductive ParseOutcome where
  | valid (m : Module)
  | invalid (msg : String)

/-- Result of `analyze_code`: the analysis dictionary on success, or the
`{"error": str(e)}` dictionary when parsing raised. -/
inductive AnalysisResult where
  | ok (a : Analysis)
  | error (msg : String)
deriving Repr, DecidableEq

/-- `EnhancedQuestionGenerator.analyze_code`: parse inside `try`, build the
analysis on success, return `{"error": str(e)}` on a parse failure. -/
def analyze_code : ParseOutcome → AnalysisResult
  | .valid m => .ok (analyzeModule m)
  | .invalid msg => .error msg

/-- A single-quote character, used by several templates. -/
def sq : String := String.mk [Char.ofNat 39]

/-- Template `"function"` rendered with `{name, lineno}`. -/
def renderFunction (name : String) (lineno : Nat) : String :=
  "What does the function " ++ sq ++ name ++ sq ++ " at line " ++ toString lineno ++ " do?"

/-- Template `"function_args"` rendered with `{name}`. -/
def renderFunctionArgs (name : String) : String :=
  "What are the purposes of the arguments in the function " ++ sq ++ name ++ sq ++ "?"

/-- Template `"variable"` rendered with `{name, lineno}`. -/
def renderVariable (name : String) (lineno : Nat) : String :=
  "What is the role of the variable " ++ sq ++ name ++ sq ++ " at line " ++ toString lineno ++ "?"

/-- Template `"loop"` rendered with `{lineno}`. -/
def renderLoop (lineno : Nat) : String :=
  "What is the significance of the loop starting at line " ++ toString lineno ++ "?"

/-- Template `"conditional"` rendered with `{lineno}`. -/
def renderConditional (lineno : Nat) : String :=
  "Under what conditions does the code block at line " ++ toString lineno ++ " execute?"

/-- Template `"import"` rendered with `{name}` (the template has no `lineno`
placeholder). -/
def renderImport (name : String) : String :=
  "Why is the module " ++ sq ++ name ++ sq ++ " imported, and how is it used?"

/-- Template `"docstring"` rendered with `{doc}`. -/
def renderDocstring (doc : String) : String :=
  "What does the following docstring explain: " ++ sq ++ doc ++ sq ++ "?"

/-- Questions appended for one function record: the base question always, and
the arguments question additionally when `if func["args"]:` is truthy, i.e.
when the argument list is non-empty. -/
def questionsForFunction (f : FuncInfo) : List String :=
  renderFunction f.name f.lineno ::
    (if f.args.isEmpty then [] else [renderFunctionArgs f.name])

/-- The function loop of `generate_questions`. -/
def functionQuestions (l : List FuncInfo) : List String :=
  l.flatMap questionsForFunction

/-- The variable loop of `generate_questions`. -/
def variableQuestions (l : List VarInfo) : List String :=
  l.map fun v => renderVariable v.name v.lineno

/-- The loop loop of `generate_questions`. -/
def loopQuestions (l : List LineInfo) : List String :=
  l.map fun i => renderLoop i.lineno

/-- The conditional loop of `generate_questions`. -/
def conditionalQuestions (l : List LineInfo) : List String :=
  l.map fun i => renderConditional i.lineno

/-- The import loop of `generate_questions`; only `imp["name"]` is used. -/
def importQuestions (l : List ImportInfo) : List String :=
  l.map fun i => renderImport i.name

/-- The docstring loop of `generate_questions`. -/
def docstringQuestions (l : List String) : List String :=
  l.map renderDocstring

/-- The full `questions` list of `generate_questions`, in the append order of
the source: functions (with their argument questions), variables, loops,
conditionals, imports, docstrings. -/
def buildQuestions (a : Analysis) : List String :=
  functionQuestions a.functions ++ variableQuestions a.vars ++
  loopQuestions a.loops ++ conditionalQuestions a.conditionals ++
  importQuestions a.imports ++ docstringQuestions a.docstrings

/-- Accumulator loop modelling `dict.fromkeys(questions)`: iterate over the
list, skip a string already seen, otherwise keep it and remember it. -/
def dedupAux (seen : List String) : List String → List String
  | [] => []
  | s :: rest => if s ∈ seen then dedupAux seen rest else s :: dedupAux (s :: seen) rest

/-- `list(dict.fromkeys(questions))`: order-preserving deduplication keeping
first occurrences. -/
def dedupFirst (l : List String) : List String := dedupAux [] l

/-- `random.choice(seq)` with the drawn index supplied explicitly: on an empty
sequence it raises `IndexError("Cannot choose from an empty sequence")`,
otherwise it returns the element at the drawn position.  The pseudo-random
draw is modelled by an arbitrary natural number reduced modulo the length, so
every position is reachable by some draw. -/
def random_choice (l : List String) (r : Nat) : Except String String :=
  match l with
  | [] => .error "Cannot choose from an empty sequence"
  | x :: xs => .ok ((x :: xs).get ⟨r % (xs.length + 1), Nat.mod_lt r (Nat.succ_pos xs.length)⟩)

/-- Observable outcome of `generate_questions`: the selected question string,
the `[f"Error analyzing code: {...}"]` list returned on the analysis-error
path, or an exception escaping the function (the `IndexError` raised by
`random.choice` on an empty pool). -/
inductive GenResult where
  | question (s : String)
  | errorList (msgs : List String)
  | exn (msg : String)
deriving Repr, DecidableEq

/-- `EnhancedQuestionGenerator.generate_questions`, parametrised by the random
draw `r`. -/
def generate_questions (p : ParseOutcome) (r : Nat) : GenResult :=
  match analyze_code p with
  | .error msg => .errorList ["Error analyzing code: " ++ msg]
  | .ok a =>
    match random_choice (dedupFirst (buildQuestions a)) r with
    | .ok s => .question s
    | .error e => .exn e

/-- Module for the snippet `def add(a, b):\n    return a + b`. -/
def addModule : Module :=
  ⟨[.functionDef "add" ["a", "b"]
      [.ret (some (.binOp (.name "a" 2) (.name "b" 2) 2)) 2] 1]⟩

/-- Module for the snippet `x = 1`. -/
def xModule : Module :=
  ⟨[.assign [.name "x" 1] (.constantInt 1 1) 1]⟩

/-- Module for the snippet `42`: a single numeric literal. -/
def numModule : Module :=
  ⟨[.exprStmt (.constantInt 42 1) 1]⟩

/-- Module for the snippet `import os, sys`. -/
def importModule : Module :=
  ⟨[.importStmt "os" ["sys"] 1]⟩

/-- Module for the snippet `from m import n\nx = 1`. -/
def fromImportModule : Module :=
  ⟨[.importFrom "m" ["n"] 1, .assign [.name "x" 2] (.constantInt 1 2) 2]⟩

/-- Specification-side description of the deduplication step, written from the
spec sentence "keeping the first occurrence and discarding later repeats,
preserving relative order of first occurrences": the first element is a first
occurrence and is kept, every later repeat of it is discarded, and the
remainder is deduplicated recursively. -/
def keepFirstSpec : List String → List String
  | [] => []
  | s :: rest => s :: keepFirstSpec (rest.filter fun t => t ≠ s)
termination_by l => l.length
decreasing_by
  have h := List.length_filter_le (fun t => decide (t ≠ s)) rest
  simp only [List.length_cons]
  omega

theorem mem_of_mem_dedupAux (seen l : List String) (s : String)
    (h : s ∈ dedupAux seen l) : s ∈ l ∧ s ∉ seen := by
  induction l generalizing seen with
  | nil => simp [dedupAux] at h
  | cons t rest ih =>
    simp only [dedupAux] at h
    by_cases ht : t ∈ seen
    · simp only [if_pos ht] at h
      have := ih seen h
      exact ⟨List.mem_cons_of_mem _ this.1, this.2⟩
    · simp only [if_neg ht] at h
      rcases List.mem_cons.mp h with h1 | h2
      · exact ⟨by simp [h1], by simpa [h1] using ht⟩
      · have := ih (t :: seen) h2
        refine ⟨List.mem_cons_of_mem _ this.1, fun hs => this.2 ?_⟩
        exact List.mem_cons_of_mem _ hs

theorem mem_dedupAux_of_mem (seen l : List String) (s : String)
    (hl : s ∈ l) (hseen : s ∉ seen) : s ∈ dedupAux seen l := by
  induction l generalizing seen with
  | nil => simp at hl
  | cons t rest ih =>
    simp only [dedupAux]
    by_cases ht : t ∈ seen
    · have hst : s ≠ t := fun h => hseen (h ▸ ht)
      rw [if_pos ht]
      exact ih seen (by rcases List.mem_cons.mp hl with h | h; exact absurd h hst; exact h)
        hseen
    · rw [if_neg ht]
      rcases List.mem_cons.mp hl with h | h
      · simp [h]
      · by_cases hst : s = t
        · simp [hst]
        · exact List.mem_cons_of_mem _
            (ih (t :: seen) h (by simp [hseen, hst]))

theorem dedupAux_sublist (seen l : List String) : (dedupAux seen l).Sublist l := by
  induction l generalizing seen with
  | nil => simp [dedupAux]
  | cons t rest ih =>
    simp only [dedupAux]
    by_cases ht : t ∈ seen
    · rw [if_pos ht]; exact (ih seen).cons t
    · rw [if_neg ht]; exact (ih (t :: seen)).cons₂ t

theorem dedupAux_nodup (seen l : List String) : (dedupAux seen l).Nodup := by
  induction l generalizing seen with
  | nil => simp [dedupAux]
  | cons t rest ih =>
    simp only [dedupAux]
    by_cases ht : t ∈ seen
    · rw [if_pos ht]; exact ih seen
    · rw [if_neg ht]
      refine List.nodup_cons.mpr ⟨fun hmem => ?_, ih (t :: seen)⟩
      exact (mem_of_mem_dedupAux _ _ _ hmem).2 (List.mem_cons_self t seen)

theorem dedupAux_eq_keepFirstSpec (seen l : List String) :
    dedupAux seen l = keepFirstSpec (l.filter fun t => t ∉ seen) := by
  induction l generalizing seen with
  | nil => simp [dedupAux, keepFirstSpec]
  | cons t rest ih =>
    simp only [dedupAux]
    by_cases ht : t ∈ seen
    · rw [if_pos ht]
      have hfilter : ((t :: rest).filter fun x => decide (x ∉ seen)) =
          rest.filter fun x => decide (x ∉ seen) := by
        simp [List.filter_cons, ht]
      rw [ih seen, hfilter]
    · rw [if_neg ht]
      have hfilter : ((t :: rest).filter fun x => decide (x ∉ seen)) =
          t :: rest.filter fun x => decide (x ∉ seen) := by
        simp [List.filter_cons, ht]
      rw [ih (t :: seen), hfilter, keepFirstSpec]
      congr 1
      rw [List.filter_filter]
      apply congrArg
      apply List.filter_congr
      intro x _
      by_cases hx1 : x = t <;> by_cases hx2 : x ∈ seen <;>
        simp [hx1, hx2, List.mem_cons]

theorem dedupFirst_eq_nil_iff (l : List String) : dedupFirst l = [] ↔ l = [] := by
  cases l with
  | nil => simp [dedupFirst, dedupAux]
  | cons s rest => simp [dedupFirst, dedupAux]

theorem mem_dedupFirst (l : List String) (s : String) :
    s ∈ dedupFirst l ↔ s ∈ l := by
  constructor
  · exact fun h => (mem_of_mem_dedupAux [] l s h).1
  · exact fun h => mem_dedupAux_of_mem [] l s h (by simp)

theorem random_choice_spec (l : List String) (r : Nat) (h : l ≠ []) :
    ∃ s, random_choice l r = .ok s ∧ s ∈ l := by
  match l with
  | [] => exact absurd rfl h
  | x :: xs => exact ⟨_, rfl, List.get_mem _ _ _⟩

theorem random_choice_nil (r : Nat) :
    random_choice [] r = .error "Cannot choose from an empty sequence" := rfl

/-- Boolean form of the `isinstance(node, ast.FunctionDef)` test. -/
def isFunctionDefNode : Node → Bool
  | .stmt (.functionDef _ _ _ _) => true
  | _ => false

theorem extractFunction_eq_some (n : Node) (f : FuncInfo) :
    extractFunction n = some f ↔
      ∃ body, n = Node.stmt (.functionDef f.name f.args body f.lineno) := by
  obtain ⟨fn, fl, fa⟩ := f
  cases n with
  | module m => simp [extractFunction]
  | expr e => cases e <;> simp [extractFunction]
  | stmt s =>
    cases s <;> simp only [extractFunction] <;>
      simp [FuncInfo.mk.injEq, Node.stmt.injEq, Stmt.functionDef.injEq]
    tauto

theorem extractImport_eq_some (n : Node) (i : ImportInfo) :
    extractImport n = some i ↔
      ∃ rest, n = Node.stmt (.importStmt i.name rest i.lineno) := by
  obtain ⟨nm, ln⟩ := i
  cases n with
  | module m => simp [extractImport]
  | expr e => cases e <;> simp [extractImport]
  | stmt s =>
    cases s <;> simp only [extractImport] <;>
      simp [ImportInfo.mk.injEq, Node.stmt.injEq, Stmt.importStmt.injEq]

theorem length_filterMap_extractFunction (l : List Node) :
    (l.filterMap extractFunction).length = (l.filter isFunctionDefNode).length := by
  induction l with
  | nil => rfl
  | cons n rest ih =>
    cases n with
    | module m => simpa [extractFunction, isFunctionDefNode] using ih
    | expr e => cases e <;> simpa [extractFunction, isFunctionDefNode] using ih
    | stmt s => cases s <;> simpa [extractFunction, isFunctionDefNode] using ih

theorem mem_functions_iff (m : Module) (f : FuncInfo) :
    f ∈ (analyzeModule m).functions ↔
      ∃ body, Node.stmt (.functionDef f.name f.args body f.lineno) ∈
        walk (Node.module m) := by
  simp only [analyzeModule, List.mem_filterMap, extractFunction_eq_some]
  constructor
  · rintro ⟨n, hn, body, rfl⟩
    exact ⟨body, hn⟩
  · rintro ⟨body, hmem⟩
    exact ⟨_, hmem, body, rfl⟩

theorem mem_imports_iff (m : Module) (i : ImportInfo) :
    i ∈ (analyzeModule m).imports ↔
      ∃ rest, Node.stmt (.importStmt i.name rest i.lineno) ∈
        walk (Node.module m) := by
  simp only [analyzeModule, List.mem_filterMap, extractImport_eq_some]
  constructor
  · rintro ⟨n, hn, rest, rfl⟩
    exact ⟨rest, hn⟩
  · rintro ⟨rest, hmem⟩
    exact ⟨_, hmem, rest, rfl⟩

theorem buildQuestions_ne_nil (a : Analysis)
    (h : a.functions ≠ [] ∨ a.vars ≠ [] ∨ a.loops ≠ [] ∨
         a.conditionals ≠ [] ∨ a.imports ≠ [] ∨ a.docstrings ≠ []) :
    buildQuestions a ≠ [] := by
  rcases h with h | h | h | h | h | h <;>
    obtain ⟨x, xs, hx⟩ := List.exists_cons_of_ne_nil h <;>
    simp [buildQuestions, hx, functionQuestions, questionsForFunction,
      variableQuestions, loopQuestions, conditionalQuestions, importQuestions,
      docstringQuestions]

theorem walk_addModule :
    walk (Node.module addModule) =
      [Node.module addModule,
       Node.stmt (.functionDef "add" ["a", "b"]
          [.ret (some (.binOp (.name "a" 2) (.name "b" 2) 2)) 2] 1),
       Node.stmt (.ret (some (.binOp (.name "a" 2) (.name "b" 2) 2)) 2),
       Node.expr (.binOp (.name "a" 2) (.name "b" 2) 2),
       Node.expr (.name "a" 2),
       Node.expr (.name "b" 2)] := by
  simp [walk, addModule, walkAux, Node.children, Stmt.childNodes, Expr.childNodes]

theorem walk_xModule :
    walk (Node.module xModule) =
      [Node.module xModule,
       Node.stmt (.assign [.name "x" 1] (.constantInt 1 1) 1),
       Node.expr (.name "x" 1),
       Node.expr (.constantInt 1 1)] := by
  simp [walk, xModule, walkAux, Node.children, Stmt.childNodes, Expr.childNodes]

theorem walk_numModule :
    walk (Node.module numModule) =
      [Node.module numModule,
       Node.stmt (.exprStmt (.constantInt 42 1) 1),
       Node.expr (.constantInt 42 1)] := by
  simp [walk, numModule, walkAux, Node.children, Stmt.childNodes, Expr.childNodes]

theorem walk_importModule :
    walk (Node.module importModule) =
      [Node.module importModule,
       Node.stmt (.importStmt "os" ["sys"] 1)] := by
  simp [walk, importModule, walkAux, Node.children, Stmt.childNodes, Expr.childNodes]

theorem walk_fromImportModule :
    walk (Node.module fromImportModule) =
      [Node.module fromImportModule,
       Node.stmt (.importFrom "m" ["n"] 1),
       Node.stmt (.assign [.name "x" 2] (.constantInt 1 2) 2),
       Node.expr (.name "x" 2),
       Node.expr (.constantInt 1 2)] := by
  simp [walk, fromImportModule, walkAux, Node.children, Stmt.childNodes,
    Expr.childNodes]

theorem analyze_addModule :
    analyzeModule addModule =
      ⟨[⟨"add", 1, ["a", "b"]⟩], [⟨"a", 2⟩, ⟨"b", 2⟩], [], [], [], []⟩ := by
  simp only [analyzeModule, extract_docstrings, walk_addModule]
  rfl

theorem analyze_xModule :
    analyzeModule xModule = ⟨[], [⟨"x", 1⟩], [], [], [], []⟩ := by
  simp only [analyzeModule, extract_docstrings, walk_xModule]
  rfl

theorem analyze_numModule :
    analyzeModule numModule = ⟨[], [], [], [], [], []⟩ := by
  simp only [analyzeModule, extract_docstrings, walk_numModule]
  rfl

theorem analyze_importModule :
    analyzeModule importModule = ⟨[], [], [], [], [⟨"os", 1⟩], []⟩ := by
  simp only [analyzeModule, extract_docstrings, walk_importModule]
  rfl

theorem analyze_fromImportModule :
    analyzeModule fromImportModule = ⟨[], [⟨"x", 2⟩], [], [], [], []⟩ := by
  simp only [analyzeModule, extract_docstrings, walk_fromImportModule]
  rfl

theorem renderImport_data_two (name : String) :
    (renderImport name).data[2]? = some 'y' := rfl

theorem renderVariable_data_two (name : String) (lineno : Nat) :
    (renderVariable name lineno).data[2]? = some 'a' := rfl

theorem renderImport_ne_renderVariable (a b : String) (lineno : Nat) :
    renderImport a ≠ renderVariable b lineno := by
  intro h
  have h2 : (renderImport a).data[2]? = (renderVariable b lineno).data[2]? := by
    rw [h]
  rw [renderImport_data_two, renderVariable_data_two] at h2
  simp at h2

theorem renderFunction_data_five (name : String) (lineno : Nat) :
    (renderFunction name lineno).data[5]? = some 'd' := rfl

theorem renderFunctionArgs_data_five (name : String) :
    (renderFunctionArgs name).data[5]? = some 'a' := rfl

theorem renderFunctionArgs_ne_renderFunction (a b : String) (lineno : Nat) :
    renderFunctionArgs a ≠ renderFunction b lineno := by
  intro h
  have h2 : (renderFunctionArgs a).data[5]? = (renderFunction b lineno).data[5]? := by
    rw [h]
  rw [renderFunctionArgs_data_five, renderFunction_data_five] at h2
  simp at h2

/-- C1: for every syntactically valid snippet whose rendered-and-deduplicated
question pool is empty, `generate_questions` fails: `random.choice` raises
`IndexError("Cannot choose from an empty sequence")` — the failure the spec
names `EmptyQuestionPool` — so no question is returned and no analysis-error
list is returned, and the syntax-error path can never produce this failure,
so its reason is distinct from the syntax-error reason. -/
theorem empty_pool_fails_distinctly (m : Module) (r : Nat)
    (h : dedupFirst (buildQuestions (analyzeModule m)) = []) :
    generate_questions (.valid m) r =
        .exn "Cannot choose from an empty sequence" ∧
    (∀ s, generate_questions (.valid m) r ≠ .question s) ∧
    (∀ msgs, generate_questions (.valid m) r ≠ .errorList msgs) ∧
    (∀ msg r2 e, generate_questions (.invalid msg) r2 ≠ .exn e) := by
  have hq : generate_questions (.valid m) r =
      .exn "Cannot choose from an empty sequence" := by
    simp [generate_questions, analyze_code, h, random_choice]
  refine ⟨hq, ?_, ?_, ?_⟩
  · intro s hcontra
    rw [hq] at hcontra
    simp at hcontra
  · intro msgs hcontra
    rw [hq] at hcontra
    simp at hcontra
  · intro msg r2 e hcontra
    simp [generate_questions, analyze_code] at hcontra

/-- Witness for C1 at the snippet `42` (a single numeric literal). -/
theorem empty_pool_fails_distinctly_witness :
    dedupFirst (buildQuestions (analyzeModule numModule)) = [] ∧
    generate_questions (.valid numModule) 0 =
      .exn "Cannot choose from an empty sequence" := by
  have h : dedupFirst (buildQuestions (analyzeModule numModule)) = [] := by
    rw [analyze_numModule]
    rfl
  exact ⟨h, (empty_pool_fails_distinctly numModule 0 h).1⟩

/-- C2: a node of a syntactically valid snippet yields a function record
exactly when it is a function definition, the record carries the declared
name, the first line number and the ordered positional parameter names, and
the number of function records equals the number of function-definition nodes
encountered by the walk. -/
theorem function_records_characterization (m : Module) (f : FuncInfo) :
    (f ∈ (analyzeModule m).functions ↔
      ∃ body, Node.stmt (.functionDef f.name f.args body f.lineno) ∈
        walk (Node.module m)) ∧
    (analyzeModule m).functions.length =
      ((walk (Node.module m)).filter isFunctionDefNode).length := by
  refine ⟨mem_functions_iff m f, ?_⟩
  simpa [analyzeModule] using
    length_filterMap_extractFunction (walk (Node.module m))

/-- Witness for C2 at the snippet `def add(a, b):\n    return a + b`. -/
theorem function_records_characterization_witness :
    (⟨"add", 1, ["a", "b"]⟩ : FuncInfo) ∈ (analyzeModule addModule).functions ∧
    (analyzeModule addModule).functions.length = 1 := by
  have h := function_records_characterization addModule ⟨"add", 1, ["a", "b"]⟩
  refine ⟨h.1.mpr ⟨[.ret (some (.binOp (.name "a" 2) (.name "b" 2) 2)) 2], ?_⟩, ?_⟩
  · rw [walk_addModule]
    simp
  · rw [h.2, walk_addModule]
    rfl

/-- C3: on syntactically invalid input, `analyze_code` returns only the error
dictionary carrying the parser message — never an analysis — and
`generate_questions` returns the analysis-error list immediately: its result
is independent of the random draw and is never a synthesized question. -/
theorem syntax_error_blocks_synthesis (msg : String) (r : Nat) :
    analyze_code (.invalid msg) = .error msg ∧
    (∀ a, analyze_code (.invalid msg) ≠ .ok a) ∧
    generate_questions (.invalid msg) r =
      .errorList ["Error analyzing code: " ++ msg] ∧
    (∀ r2, generate_questions (.invalid msg) r2 =
      generate_questions (.invalid msg) r) ∧
    (∀ s, generate_questions (.invalid msg) r ≠ .question s) := by
  refine ⟨rfl, ?_, rfl, fun r2 => rfl, ?_⟩
  · intro a hcontra
    simp [analyze_code] at hcontra
  · intro s hcontra
    simp [generate_questions, analyze_code] at hcontra

/-- Witness for C3 at a concrete parser message. -/
theorem syntax_error_blocks_synthesis_witness :
    generate_questions (.invalid "invalid syntax") 0 =
      .errorList ["Error analyzing code: " ++ "invalid syntax"] :=
  (syntax_error_blocks_synthesis "invalid syntax" 0).2.2.1

/-- C4: for every syntactically valid snippet with at least one function,
variable, loop, conditional, import or docstring record, `generate_questions`
returns a member of the deduplicated candidate pool, for every outcome of the
random draw, and never raises the empty-pool failure. -/
theorem nonempty_pool_selection (m : Module) (r : Nat)
    (h : (analyzeModule m).functions ≠ [] ∨ (analyzeModule m).vars ≠ [] ∨
         (analyzeModule m).loops ≠ [] ∨ (analyzeModule m).conditionals ≠ [] ∨
         (analyzeModule m).imports ≠ [] ∨ (analyzeModule m).docstrings ≠ []) :
    (∃ s, generate_questions (.valid m) r = .question s ∧
       s ∈ dedupFirst (buildQuestions (analyzeModule m))) ∧
    (∀ e, generate_questions (.valid m) r ≠ .exn e) := by
  have hb := buildQuestions_ne_nil _ h
  have hd : dedupFirst (buildQuestions (analyzeModule m)) ≠ [] := fun hn =>
    hb ((dedupFirst_eq_nil_iff _).mp hn)
  obtain ⟨s, hs, hmem⟩ := random_choice_spec _ r hd
  have hq : generate_questions (.valid m) r = .question s := by
    simp [generate_questions, analyze_code, hs]
  refine ⟨⟨s, hq, hmem⟩, ?_⟩
  intro e hcontra
  rw [hq] at hcontra
  simp at hcontra

/-- Witness for C4 at the snippet `x = 1`. -/
theorem nonempty_pool_selection_witness :
    ∃ s, generate_questions (.valid xModule) 0 = .question s ∧
      s ∈ dedupFirst (buildQuestions (analyzeModule xModule)) := by
  refine (nonempty_pool_selection xModule 0 (Or.inr (Or.inl ?_))).1
  rw [analyze_xModule]
  simp

/-- C5: on `def add(a, b):\n    return a + b` the analysis has exactly one
function record (`add`, line 1, arguments `a`, `b`) and exactly two variable
records (`a` and `b` at line 2), the deduplicated pool is exactly the four
rendered questions, and the synthesizer returns one of those four strings for
every random draw. -/
theorem add_example_pipeline :
    (analyzeModule addModule).functions = [⟨"add", 1, ["a", "b"]⟩] ∧
    (analyzeModule addModule).vars = [⟨"a", 2⟩, ⟨"b", 2⟩] ∧
    dedupFirst (buildQuestions (analyzeModule addModule)) =
      [renderFunction "add" 1, renderFunctionArgs "add",
       renderVariable "a" 2, renderVariable "b" 2] ∧
    (∀ r, ∃ s, generate_questions (.valid addModule) r = .question s ∧
       s ∈ [renderFunction "add" 1, renderFunctionArgs "add",
            renderVariable "a" 2, renderVariable "b" 2]) := by
  have hpool : dedupFirst (buildQuestions (analyzeModule addModule)) =
      [renderFunction "add" 1, renderFunctionArgs "add",
       renderVariable "a" 2, renderVariable "b" 2] := by
    rw [analyze_addModule]
    rfl
  refine ⟨by rw [analyze_addModule], by rw [analyze_addModule], hpool, ?_⟩
  intro r
  obtain ⟨s, hs, hmem⟩ :=
    random_choice_spec (dedupFirst (buildQuestions (analyzeModule addModule))) r
      (by rw [hpool]; simp)
  refine ⟨s, ?_, by rwa [hpool] at hmem⟩
  simp [generate_questions, analyze_code, hs]

/-- Witness for C5 at the random draw 0. -/
theorem add_example_pipeline_witness :
    ∃ s, generate_questions (.valid addModule) 0 = .question s ∧
      s ∈ [renderFunction "add" 1, renderFunctionArgs "add",
           renderVariable "a" 2, renderVariable "b" 2] :=
  add_example_pipeline.2.2.2 0

/-- C6: each function record contributes the base question always, and the
arguments question exactly when its argument list is non-empty, hence one
question for a zero-parameter function and two otherwise; every contributed
question reaches the candidate list of the synthesizer. -/
theorem function_question_contribution (f : FuncInfo) :
    questionsForFunction f =
      (if f.args = [] then [renderFunction f.name f.lineno]
       else [renderFunction f.name f.lineno, renderFunctionArgs f.name]) ∧
    (questionsForFunction f).length = (if f.args = [] then 1 else 2) ∧
    (renderFunction f.name f.lineno ∈ questionsForFunction f) ∧
    (renderFunctionArgs f.name ∈ questionsForFunction f ↔ f.args ≠ []) ∧
    (∀ a : Analysis, f ∈ a.functions →
      ∀ q ∈ questionsForFunction f, q ∈ buildQuestions a) := by
  have hform : questionsForFunction f =
      (if f.args = [] then [renderFunction f.name f.lineno]
       else [renderFunction f.name f.lineno, renderFunctionArgs f.name]) := by
    cases hargs : f.args <;> simp [questionsForFunction, hargs]
  refine ⟨hform, ?_, ?_, ?_, ?_⟩
  · rw [hform]
    by_cases hargs : f.args = [] <;> simp [hargs]
  · rw [hform]
    by_cases hargs : f.args = [] <;> simp [hargs]
  · rw [hform]
    by_cases hargs : f.args = []
    · rw [if_pos hargs]
      simp only [List.mem_singleton, hargs, ne_eq, not_true_eq_false, iff_false]
      exact renderFunctionArgs_ne_renderFunction _ _ _
    · rw [if_neg hargs]
      simp [hargs]
  · intro a hf q hq
    have hmem : q ∈ functionQuestions a.functions :=
      List.mem_flatMap.mpr ⟨f, hf, hq⟩
    simp only [buildQuestions, List.mem_append]
    tauto

/-- Witness for C6 at the `add` function record. -/
theorem function_question_contribution_witness :
    questionsForFunction ⟨"add", 1, ["a", "b"]⟩ =
      [renderFunction "add" 1, renderFunctionArgs "add"] ∧
    renderFunction "add" 1 ∈ buildQuestions (analyzeModule addModule) := by
  have h := function_question_contribution ⟨"add", 1, ["a", "b"]⟩
  refine ⟨by simpa using h.1, ?_⟩
  refine h.2.2.2.2 (analyzeModule addModule) ?_ _ ?_
  · rw [analyze_addModule]
    simp
  · exact h.2.2.1

/-- C7: the deduplication of the rendered question list keeps exactly the
first occurrence of each distinct string, discards every later repeat and
preserves the relative order of first occurrences: it coincides with the
first-occurrence specification, is duplicate-free, is an order-preserving
sublist of the input, keeps exactly the strings of the input, and gives every
input string exactly one pool entry. -/
theorem dedup_first_occurrence_law (l : List String) :
    dedupFirst l = keepFirstSpec l ∧
    (dedupFirst l).Nodup ∧
    (dedupFirst l).Sublist l ∧
    (∀ s, s ∈ dedupFirst l ↔ s ∈ l) ∧
    (∀ s, s ∈ l → (dedupFirst l).count s = 1) := by
  have h1 : dedupFirst l = keepFirstSpec l := by
    have h := dedupAux_eq_keepFirstSpec [] l
    simpa [dedupFirst] using h
  refine ⟨h1, dedupAux_nodup [] l, dedupAux_sublist [] l, mem_dedupFirst l, ?_⟩
  intro s hs
  exact List.count_eq_one_of_mem (dedupAux_nodup [] l)
    ((mem_dedupFirst l s).mpr hs)

/-- Witness for C7 on a pool with a repeated string. -/
theorem dedup_first_occurrence_law_witness :
    (dedupFirst ["q1", "q2", "q1"]).Nodup ∧
    (dedupFirst ["q1", "q2", "q1"]).count "q1" = 1 := by
  have h := dedup_first_occurrence_law ["q1", "q2", "q1"]
  exact ⟨h.2.1, h.2.2.2.2 "q1" (by simp)⟩

/-- C8: an import record exists exactly for plain import statements and
carries only the first listed module name together with the statement's line,
and the rendered import question is a function of the record's name alone —
two import lists with the same names render identically whatever their line
numbers. -/
theorem import_first_name_only (m : Module) (i : ImportInfo) :
    (i ∈ (analyzeModule m).imports ↔
      ∃ rest, Node.stmt (.importStmt i.name rest i.lineno) ∈
        walk (Node.module m)) ∧
    importQuestions (analyzeModule m).imports =
      ((analyzeModule m).imports.map ImportInfo.name).map renderImport ∧
    (∀ l1 l2 : List ImportInfo, l1.map ImportInfo.name = l2.map ImportInfo.name →
      importQuestions l1 = importQuestions l2) := by
  have hname : ∀ l : List ImportInfo,
      importQuestions l = (l.map ImportInfo.name).map renderImport := by
    intro l
    rw [List.map_map]
    rfl
  refine ⟨mem_imports_iff m i, hname _, ?_⟩
  intro l1 l2 hmap
  rw [hname l1, hname l2, hmap]

/-- Witness for C8 at the snippet `import os, sys`. -/
theorem import_first_name_only_witness :
    (⟨"os", 1⟩ : ImportInfo) ∈ (analyzeModule importModule).imports ∧
    importQuestions [⟨"os", 1⟩] = importQuestions [⟨"os", 99⟩] := by
  have h := import_first_name_only importModule ⟨"os", 1⟩
  refine ⟨h.1.mpr ⟨["sys"], ?_⟩, h.2.2 [⟨"os", 1⟩] [⟨"os", 99⟩] rfl⟩
  rw [walk_importModule]
  simp

/-- C9: on `x = 1` the assignment target is a bare name node, so the analysis
produces exactly one variable record (`x` at line 1), the candidate pool is
the non-empty singleton of its rendered question, and the synthesizer returns
that question for every random draw. -/
theorem assignment_target_is_variable :
    (analyzeModule xModule).vars = [⟨"x", 1⟩] ∧
    dedupFirst (buildQuestions (analyzeModule xModule)) =
      [renderVariable "x" 1] ∧
    (∀ r, generate_questions (.valid xModule) r =
      .question (renderVariable "x" 1)) := by
  have hpool : dedupFirst (buildQuestions (analyzeModule xModule)) =
      [renderVariable "x" 1] := by
    rw [analyze_xModule]
    rfl
  refine ⟨by rw [analyze_xModule], hpool, ?_⟩
  intro r
  simp [generate_questions, analyze_code, hpool, random_choice, Nat.mod_one]

/-- Witness for C9 at the random draw 5. -/
theorem assignment_target_is_variable_witness :
    generate_questions (.valid xModule) 5 =
      .question (renderVariable "x" 1) :=
  assignment_target_is_variable.2.2 5

/-- C10: a `from ... import ...` statement is never classified as an import —
records arise only from plain import statements — so on
`from m import n\nx = 1` the import list is empty, the pool is exactly the
variable question, and no rendered import question is in the pool. -/
theorem from_import_not_classified :
    (analyzeModule fromImportModule).imports = [] ∧
    dedupFirst (buildQuestions (analyzeModule fromImportModule)) =
      [renderVariable "x" 2] ∧
    (∀ name, renderImport name ∉
      buildQuestions (analyzeModule fromImportModule)) ∧
    (∀ (m : Module) (i : ImportInfo), i ∈ (analyzeModule m).imports →
      ∃ rest, Node.stmt (.importStmt i.name rest i.lineno) ∈
        walk (Node.module m)) := by
  have hb : buildQuestions (analyzeModule fromImportModule) =
      [renderVariable "x" 2] := by
    rw [analyze_fromImportModule]
    rfl
  refine ⟨by rw [analyze_fromImportModule], by rw [hb]; rfl, ?_, ?_⟩
  · intro name hmem
    rw [hb] at hmem
    exact renderImport_ne_renderVariable name "x" 2 (List.mem_singleton.mp hmem)
  · intro m i hi
    exact (mem_imports_iff m i).mp hi

/-- Witness for C10: the general import-origin clause applied at
`import os, sys`. -/
theorem from_import_not_classified_witness :
    (analyzeModule fromImportModule).imports = [] ∧
    ∃ rest, Node.stmt (.importStmt "os" rest 1) ∈
      walk (Node.module importModule) := by
  have h := from_import_not_classified
  refine ⟨h.1, h.2.2.2 importModule ⟨"os", 1⟩ ?_⟩
  rw [analyze_importModule]
  simp

end Codegen
